import Mathlib

/-!
Verification development for the KPI dashboard repository.

The two server endpoints (`src/app/api/upload/route.ts` and
`src/app/api/analyze-default/route.ts`) are shallowly embedded below.

JavaScript numbers are modelled as `Option Frac`, where `Frac` is an
executable exact-rational type (kernel-reducible, so concrete runs of the
embedded program can be settled by `decide`): `some q` is an ordinary
finite value and `none` plays the role of `NaN` (`NaN` propagates through
arithmetic and every comparison with it is false, which the `Option`
combinators below reproduce).  JavaScript strings are Lean `String`s, and
the `split` calls of the source (all of which use a one-character
separator) are modelled by an explicit character-level split.

Rows produced by the third-party CSV parser (`papaparse`, not part of the
repository) are modelled as association lists from column names to field
values; the analysis functions take the parsed rows and the parser's error
list as inputs, exactly at the boundary where the source code receives
them.
-/

namespace Dashboard

/-! ## Executable exact rationals -/

/-- Euclid's algorithm with explicit fuel, so that it is structurally
recursive and reduces inside the kernel.  `gcdF (a+1) a b` computes
`gcd a b`: the first argument strictly decreases at every step, so fuel
`a + 1` is always sufficient. -/
def gcdF : ℕ → ℕ → ℕ → ℕ
  | 0, _, b => b
  | f + 1, a, b => if a = 0 then b else gcdF f (b % a) a

/-- Greatest common divisor (executable, kernel-reducible). -/
def myGcd (a b : ℕ) : ℕ := gcdF (a + 1) a b

/-- An exact rational: numerator and positive denominator, kept in lowest
terms by `mkQ`.  All arithmetic below produces values in this normal form,
so structural equality coincides with equality of rational values. -/
structure Frac where
  num : ℤ
  den : ℕ
deriving DecidableEq, Repr

/-- Build the normal form of `n / d` (sign on the numerator, lowest
terms).  `d = 0` never arises from the embedded program. -/
def mkQ (n d : ℤ) : Frac :=
  if d = 0 then ⟨0, 1⟩
  else
    let s : ℤ := if d < 0 then -1 else 1
    let n' := s * n
    let d' := (s * d).toNat
    let g := myGcd n'.natAbs d'
    ⟨n' / (g : ℤ), d' / g⟩

def qOfNat (n : ℕ) : Frac := ⟨(n : ℤ), 1⟩

def qOfInt (n : ℤ) : Frac := ⟨n, 1⟩

def qAdd (a b : Frac) : Frac := mkQ (a.num * b.den + b.num * a.den) (a.den * b.den)

def qSub (a b : Frac) : Frac := mkQ (a.num * b.den - b.num * a.den) (a.den * b.den)

def qMul (a b : Frac) : Frac := mkQ (a.num * b.num) (a.den * b.den)

def qDiv (a b : Frac) : Frac := mkQ (a.num * b.den) (a.den * b.num)

/-- `a < b` on exact rationals (denominators are positive). -/
def qBlt (a b : Frac) : Bool := decide (a.num * (b.den : ℤ) < b.num * (a.den : ℤ))

/-- Floor of a rational (denominators are positive). -/
def qFloor (a : Frac) : ℤ := a.num.fdiv (a.den : ℤ)

/-! ## JavaScript number model: `Option Frac` with `none` as NaN -/

/-- JS `x + y` (NaN-propagating). -/
def addN : Option Frac → Option Frac → Option Frac
  | some x, some y => some (qAdd x y)
  | _, _ => none

/-- JS `x - y` (NaN-propagating). -/
def subN : Option Frac → Option Frac → Option Frac
  | some x, some y => some (qSub x y)
  | _, _ => none

/-- JS `x * y` (NaN-propagating). -/
def mulN : Option Frac → Option Frac → Option Frac
  | some x, some y => some (qMul x y)
  | _, _ => none

/-- JS `x / y` (NaN-propagating).  A zero divisor yields `none`; in the
source a division either has the constant divisor 60 or is guarded by a
strict positivity test, so the JS `x/0 = Infinity` case is unreachable. -/
def divN : Option Frac → Option Frac → Option Frac
  | some x, some y => if y.num = 0 then none else some (qDiv x y)
  | _, _ => none

/-- JS `x > c` for a possibly-NaN `x`: any comparison with NaN is false. -/
def gtN (x : Option Frac) (c : Frac) : Bool :=
  match x with
  | some v => qBlt c v
  | none => false

/-- JS `Math.round`: the closest integer, half-way cases toward `+∞`,
i.e. `⌊q + 1/2⌋`. -/
def jsRound (q : Frac) : ℤ := qFloor (qAdd q ⟨1, 2⟩)

/-- `Math.round(q * 100) / 100`, the two-decimal rounding used throughout
the source. -/
def round2 (q : Frac) : Frac := mkQ (jsRound (qMul q (qOfNat 100))) 100

/-- Two-decimal rounding lifted to possibly-NaN values
(`Math.round(NaN)` is `NaN`). -/
def roundN2 : Option Frac → Option Frac := Option.map round2

/-! ## JavaScript string helpers -/

/-- `String.prototype.split` with a one-character separator, at the
character-list level.  Matches JS semantics: splitting the empty string
gives `[""]`, and a trailing separator produces a trailing empty field. -/
def splitChar (sep : Char) : List Char → List (List Char)
  | [] => [[]]
  | c :: cs =>
    if c = sep then [] :: splitChar sep cs
    else
      match splitChar sep cs with
      | [] => [[c]]
      | g :: gs => (c :: g) :: gs

/-- JS `s.split(sep)` for a one-character separator. -/
def jsSplit (s : String) (sep : Char) : List String :=
  (splitChar sep s.data).map (fun cs => ⟨cs⟩)

/-- The characters stripped by `String.prototype.trim` (JS WhiteSpace and
LineTerminator code points). -/
def isJsWs (c : Char) : Bool :=
  c.toNat ∈ [9, 10, 11, 12, 13, 32, 160, 0x1680, 0x2000, 0x2001, 0x2002,
    0x2003, 0x2004, 0x2005, 0x2006, 0x2007, 0x2008, 0x2009, 0x200A,
    0x2028, 0x2029, 0x202F, 0x205F, 0x3000, 0xFEFF]

/-- JS `s.trim()`. -/
def jsTrim (s : String) : String :=
  ⟨((s.data.dropWhile isJsWs).reverse.dropWhile isJsWs).reverse⟩

/-- Numeric value of a list of decimal digit characters. -/
def digitsVal (cs : List Char) : ℕ :=
  cs.foldl (fun a c => a * 10 + (c.toNat - 48)) 0

/-- JS `Number(s)` on the string shapes the analysis feeds it: trimmed
whitespace, the empty string is 0, an optional sign followed by a decimal
literal (`123`, `123.`, `.5`, `12.75`).  Anything else — in particular the
malformed timestamp fields the source would turn into `NaN` — is `none`.
(Hexadecimal and exponent literals, which no timestamp field can contain,
are also mapped to `none`.) -/
def jsNumber (s : String) : Option Frac :=
  let t := (jsTrim s).data
  if t = [] then some (qOfNat 0)
  else
    let signed : ℤ × List Char :=
      match t with
      | '-' :: r => (-1, r)
      | '+' :: r => (1, r)
      | _ => (1, t)
    let ip := signed.2.takeWhile Char.isDigit
    let rest := signed.2.dropWhile Char.isDigit
    match rest with
    | [] => if ip = [] then none else some (mkQ (signed.1 * digitsVal ip) 1)
    | '.' :: fr =>
      if fr.all Char.isDigit ∧ (ip ≠ [] ∨ fr ≠ []) then
        some (mkQ (signed.1 * ((digitsVal ip : ℤ) * 10 ^ fr.length + (digitsVal fr : ℤ))) (10 ^ fr.length))
      else none
    | _ => none

/-! ## `parseTimeToMinutes` and `calculateWorkPeriods` (upload route) -/

/-- `parseTimeToMinutes` from `upload/route.ts`: take the part before the
first `.`, split it on `:`, and compute `hours*60 + minutes + seconds/60`.
A missing component is JS `undefined`, whose numeric coercion is NaN. -/
def parseTimeToMinutes (timeStr : String) : Option Frac :=
  let timePart := (jsSplit timeStr '.').headD ""
  let comps := jsSplit timePart ':'
  let nth : ℕ → Option Frac := fun i =>
    match comps.get? i with
    | some s => jsNumber s
    | none => none
  addN (addN (mulN (nth 0) (some (qOfNat 60))) (nth 1)) (divN (nth 2) (some (qOfNat 60)))

structure WorkPeriod where
  start_time : String
  end_time : String
  duration_hours : Option Frac
  barcode_count : ℕ
deriving DecidableEq, Repr

/-- Closing a period records `(end_minutes - start_minutes) / 60` as its
duration in hours. -/
def closePeriod (p : WorkPeriod) : WorkPeriod :=
  let startMinutes := parseTimeToMinutes p.start_time
  let endMinutes := parseTimeToMinutes p.end_time
  { p with duration_hours := divN (subN endMinutes startMinutes) (some (qOfNat 60)) }

/-- The loop of `calculateWorkPeriods`: `prev` is the previously visited
sorted timestamp (`sortedTimes[i-1]` in the source). -/
def periodsLoop (cur : WorkPeriod) (prev : String) : List String → List WorkPeriod
  | [] => [closePeriod cur]
  | t :: ts =>
    let timeDiff := subN (parseTimeToMinutes t) (parseTimeToMinutes prev)
    if gtN timeDiff (qOfNat 30) then
      closePeriod cur :: periodsLoop ⟨t, t, some (qOfNat 0), 1⟩ t ts
    else
      periodsLoop { cur with end_time := t, barcode_count := cur.barcode_count + 1 } t ts

/-- The UTF-16 code units encoding one character. -/
def utf16Units (c : Char) : List ℕ :=
  let n := c.toNat
  if n < 0x10000 then [n]
  else [0xD800 + (n - 0x10000) / 0x400, 0xDC00 + (n - 0x10000) % 0x400]

/-- The UTF-16 code units of a string, as JS sees it. -/
def strUnits (s : String) : List ℕ := (s.data.map utf16Units).flatten

/-- Lexicographic strict order on code-unit lists. -/
def unitsLt : List ℕ → List ℕ → Bool
  | [], [] => false
  | [], _ :: _ => true
  | _ :: _, [] => false
  | a :: as, b :: bs =>
    if a < b then true else if b < a then false else unitsLt as bs

/-- JS `a < b` on strings: lexicographic comparison of UTF-16 code units. -/
def jsStrLt (a b : String) : Bool := unitsLt (strUnits a) (strUnits b)

/-- The order in which JS default `Array.prototype.sort` arranges strings:
`a` may precede `b` iff `¬ b < a`.  The JS sort is stable, so it is
modelled by the stable `List.insertionSort`. -/
def jsStrLe (a b : String) : Prop := jsStrLt b a = false

instance : DecidableRel jsStrLe := fun _ _ => instDecidableEqBool _ _

/-- `calculateWorkPeriods` from `upload/route.ts`. -/
def calculateWorkPeriods (timeEntries : List String) : List WorkPeriod :=
  match List.insertionSort jsStrLe timeEntries with
  | [] => []
  | t0 :: rest => periodsLoop ⟨t0, t0, some (qOfNat 0), 1⟩ t0 rest

/-! ## Parsed rows and grouping -/

/-- A row as delivered by the CSV parser with `header: true`: an
association list from (trimmed) column names to (trimmed) field values,
in column order. -/
abbrev Row := List (String × String)

/-- JS property access `row.col` as used in a template literal or a string
position: a present field gives its value; an absent field is `undefined`,
which JS string-interpolates as `"undefined"`. -/
def jsField (r : Row) (c : String) : String :=
  match r.find? (fun p => p.1 == c) with
  | some p => p.2
  | none => "undefined"

/-- JS `col in row`. -/
def rowHasCol (r : Row) (c : String) : Bool := r.any (fun p => p.1 == c)

/-- The grouping key `` `${row.firstname}_${row.lastname}` ``. -/
def keyOf (r : Row) : String := jsField r "firstname" ++ "_" ++ jsField r "lastname"

/-- The per-person accumulator of the upload route's grouping `Map`. -/
structure GroupU where
  firstname : String
  lastname : String
  timeEntries : List String
  barcodeCount : ℕ
deriving DecidableEq, Repr

/-- One step of the upload route's grouping loop.  A JS `Map` keeps keys
in insertion order and updates in place, which the association-list
update below reproduces.  A fresh key is inserted with a zero count and
no time entries, then immediately pushed to and incremented, giving the
appended entry. -/
def stepU (acc : List (String × GroupU)) (row : Row) : List (String × GroupU) :=
  let k := keyOf row
  if acc.any (fun e => e.1 == k) then
    acc.map (fun e =>
      if e.1 == k then
        (e.1, { e.2 with timeEntries := e.2.timeEntries ++ [jsField row "TimeEntered"],
                         barcodeCount := e.2.barcodeCount + 1 })
      else e)
  else
    acc ++ [(k, ⟨jsField row "firstname", jsField row "lastname", [jsField row "TimeEntered"], 1⟩)]

/-- The upload route's grouping pass (`data.forEach`, file order). -/
def groupU (data : List Row) : List (String × GroupU) := data.foldl stepU []

/-- `PersonData` of the upload route. -/
structure PersonU where
  firstname : String
  lastname : String
  barcode_range_count : ℕ
  total_hours_worked : Option Frac
  barcodes_per_hour : Option Frac
  work_periods : List WorkPeriod
deriving DecidableEq, Repr

/-- Conversion of one grouped person to `PersonData` in the upload route:
work periods, total hours (sum of period durations), and the
positivity-guarded scans-per-hour rate, both rounded to two decimals. -/
def mkPersonU (g : GroupU) : PersonU :=
  let workPeriods := calculateWorkPeriods g.timeEntries
  let totalHoursWorked := workPeriods.foldl (fun s p => addN s p.duration_hours) (some (qOfNat 0))
  let barcodesPerHour :=
    if gtN totalHoursWorked (qOfNat 0) then divN (some (qOfNat g.barcodeCount)) totalHoursWorked
    else some (qOfNat 0)
  { firstname := g.firstname
    lastname := g.lastname
    barcode_range_count := g.barcodeCount
    total_hours_worked := roundN2 totalHoursWorked
    barcodes_per_hour := roundN2 barcodesPerHour
    work_periods := workPeriods }

/-- `PersonData` of the default route (reduced shape). -/
structure PersonD where
  firstname : String
  lastname : String
  barcode_range_count : ℕ
deriving DecidableEq, Repr

/-- One step of the default route's counting loop
(`personCounts.set(key, (personCounts.get(key) || 0) + 1)`). -/
def stepD (acc : List (String × ℕ)) (row : Row) : List (String × ℕ) :=
  let k := keyOf row
  if acc.any (fun e => e.1 == k) then
    acc.map (fun e => if e.1 == k then (e.1, e.2 + 1) else e)
  else
    acc ++ [(k, 1)]

/-- The default route's grouping pass. -/
def groupD (data : List Row) : List (String × ℕ) := data.foldl stepD []

/-- Default-route person reconstruction:
`const [firstname, lastname] = key.split('_')` keeps the first two
segments and drops the rest; a missing segment would be JS `undefined`
(unreachable: every key contains an underscore). -/
def mkPersonD (k : String) (c : ℕ) : PersonD :=
  let parts := jsSplit k '_'
  ⟨parts.getD 0 "undefined", parts.getD 1 "undefined", c⟩

/-! ## Envelope, sorting, statistics -/

structure Statistics where
  total_people : ℕ
  total_ranges : ℕ
  average_ranges_per_person : Frac
deriving DecidableEq, Repr

structure AnalysisData (P : Type) where
  people_data : List P
  statistics : Statistics
  filename : String
  upload_time : String
deriving DecidableEq, Repr

structure AnalysisResult (P : Type) where
  success : Bool
  data : Option (AnalysisData P)
  error : Option String
deriving DecidableEq, Repr

/-- The sort order `(a, b) => b.barcode_range_count - a.barcode_range_count`
of the upload route: `a` may precede `b` iff the comparator is `≤ 0`.
`Array.prototype.sort` is stable, hence the stable `insertionSort`. -/
def leU (a b : PersonU) : Prop := b.barcode_range_count ≤ a.barcode_range_count

instance : DecidableRel leU := fun _ _ => Nat.decLe _ _

/-- Same descending-count order for the default route's person shape. -/
def leD (a b : PersonD) : Prop := b.barcode_range_count ≤ a.barcode_range_count

instance : DecidableRel leD := fun _ _ => Nat.decLe _ _

/-- The `people_data` list of the upload route, before the envelope. -/
def peopleDataU (data : List Row) : List PersonU :=
  List.insertionSort leU ((groupU data).map (fun e => mkPersonU e.2))

/-- The `people_data` list of the default route, before the envelope. -/
def peopleDataD (data : List Row) : List PersonD :=
  List.insertionSort leD ((groupD data).map (fun e => mkPersonD e.1 e.2))

/-- Statistics of the upload route, computed over the sorted list. -/
def statsU (peopleData : List PersonU) : Statistics :=
  let totalPeople := peopleData.length
  let totalRanges := peopleData.foldl (fun s p => s + p.barcode_range_count) 0
  let averageRangesPerPerson :=
    if 0 < totalPeople then qDiv (qOfNat totalRanges) (qOfNat totalPeople) else qOfNat 0
  ⟨totalPeople, totalRanges, round2 averageRangesPerPerson⟩

/-- Statistics of the default route, computed over the sorted list. -/
def statsD (peopleData : List PersonD) : Statistics :=
  let totalPeople := peopleData.length
  let totalRanges := peopleData.foldl (fun s p => s + p.barcode_range_count) 0
  let averageRangesPerPerson :=
    if 0 < totalPeople then qDiv (qOfNat totalRanges) (qOfNat totalPeople) else qOfNat 0
  ⟨totalPeople, totalRanges, round2 averageRangesPerPerson⟩

/-- Required columns of the upload route. -/
def requiredColumnsU : List String := ["firstname", "lastname", "BarcodeRangeID", "TimeEntered"]

/-- Required columns of the default route. -/
def requiredColumnsD : List String := ["firstname", "lastname", "BarcodeRangeID"]

/-- `requiredColumns.filter(col => !data[0] || !(col in data[0]))`. -/
def missingColumns (required : List String) (data : List Row) : List String :=
  required.filter (fun col =>
    match data.head? with
    | none => true
    | some r0 => ! rowHasCol r0 col)

/-- The success payload of the upload route's `analyzeBarcodes`.
`now` stands for `new Date().toISOString()`. -/
def mkPayloadU (data : List Row) (now : String) : AnalysisData PersonU :=
  let peopleData := peopleDataU data
  ⟨peopleData, statsU peopleData, "uploaded_file.csv", now⟩

/-- The success payload of the default route's `analyzeBarcodes`. -/
def mkPayloadD (data : List Row) (now : String) : AnalysisData PersonD :=
  let peopleData := peopleDataD data
  ⟨peopleData, statsD peopleData, "Taskmaster.csv", now⟩

/-- `analyzeBarcodes` of `upload/route.ts`, from the point where the CSV
parser has returned (`parseErrors` is `parseResult.errors`, `data` is
`parseResult.data`).  Every function involved is total, so the
`try`/`catch` wrapper of the source never fires and is not modelled. -/
def analyzeBarcodesU (parseErrors : List String) (data : List Row) (now : String) :
    AnalysisResult PersonU :=
  match parseErrors with
  | e :: _ => ⟨false, none, some ("CSV parsing error: " ++ e)⟩
  | [] =>
    match missingColumns requiredColumnsU data with
    | [] => ⟨true, some (mkPayloadU data now), none⟩
    | ms => ⟨false, none, some ("Missing required columns: " ++ String.intercalate ", " ms)⟩

/-- `analyzeBarcodes` of `analyze-default/route.ts` (reduced column set,
counts only, filename fixed to `"Taskmaster.csv"`). -/
def analyzeBarcodesD (parseErrors : List String) (data : List Row) (now : String) :
    AnalysisResult PersonD :=
  match parseErrors with
  | e :: _ => ⟨false, none, some ("CSV parsing error: " ++ e)⟩
  | [] =>
    match missingColumns requiredColumnsD data with
    | [] => ⟨true, some (mkPayloadD data now), none⟩
    | ms => ⟨false, none, some ("Missing required columns: " ++ String.intercalate ", " ms)⟩

/-- The `GET` handler of `analyze-default/route.ts`, with its two effects
made explicit: `fileExists` is `fs.existsSync(defaultFilePath)`, and the
parser outcome on the decoded file contents is passed as in
`analyzeBarcodesD`.  The handler is total: every failure is an ordinary
`success:false` envelope. -/
def getDefault (fileExists : Bool) (parseErrors : List String) (data : List Row)
    (now : String) : AnalysisResult PersonD :=
  if fileExists then analyzeBarcodesD parseErrors data now
  else ⟨false, none, some "Default file not found"⟩

/-- The people list of an envelope (empty on failure). -/
def peopleOf {P : Type} (r : AnalysisResult P) : List P :=
  match r.data with
  | some d => d.people_data
  | none => []

/-! ## Line cleaning (both routes) -/

/-- The case-insensitive regular expression `^\d+ rows affected\)?$`:
one or more digits, then a literal tail, with an optional closing
parenthesis.  Without the `u` flag, `i`-mode canonicalisation only folds
ASCII letters, which `asciiLower` reproduces. -/
def asciiLower (c : Char) : Char :=
  if 'A' ≤ c ∧ c ≤ 'Z' then Char.ofNat (c.toNat + 32) else c

def rowsAffectedRe (t : String) : Bool :=
  let cs := t.data
  let ds := cs.takeWhile Char.isDigit
  let rest := (cs.dropWhile Char.isDigit).map asciiLower
  !ds.isEmpty && (rest == " rows affected".data || rest == " rows affected)".data)

/-- The filter predicate of the pre-parse cleaning pass: keep a line iff,
after trimming, it is non-empty, is not a bare carriage return, does not
match the rows-affected artifact, and splits on tab into at least 18
fields. -/
def keepLine (line : String) : Bool :=
  let trimmed := jsTrim line
  !(trimmed == "") && !(trimmed == "\r") && !(rowsAffectedRe trimmed)
    && decide (18 ≤ (jsSplit trimmed '\t').length)

/-- The cleaned text handed to the CSV parser: split on newline, filter,
rejoin with newline. -/
def cleanedContent (csvContent : String) : String :=
  String.intercalate "\n" ((jsSplit csvContent '\n').filter keepLine)

/-! ## Encoding detection (both routes) -/

inductive BufEncoding
  | utf16le
  | utf8
  | latin1
  | ascii
deriving DecidableEq, Repr

/-- Node `buffer.toString('latin1')`: one character per byte. -/
def decodeLatin1 (bs : List ℕ) : List ℕ := bs

/-- Node `buffer.toString('ascii')`: the high bit of every byte is
masked off. -/
def decodeAscii (bs : List ℕ) : List ℕ := bs.map (· % 128)

/-- Node `buffer.toString('utf16le')`: little-endian byte pairs become
code units; a trailing odd byte is dropped. -/
def decodeUtf16le : List ℕ → List ℕ
  | b0 :: b1 :: rest => (b0 + 256 * b1) :: decodeUtf16le rest
  | _ => []

/-- Whether a byte is a UTF-8 continuation byte. -/
def utf8Cont (b : ℕ) : Bool := 128 ≤ b && b < 192

/-- Standard UTF-8 decoding with each invalid sequence replaced by
U+FFFD, written with a step-counting fuel parameter so that the
recursion is structural; every step consumes at least one byte, so fuel
equal to the byte count (as supplied by `decodeUtf8`) is sufficient. -/
def decodeUtf8F : ℕ → List ℕ → List ℕ
  | 0, _ => []
  | _ + 1, [] => []
  | f + 1, b :: bs =>
    if b < 128 then b :: decodeUtf8F f bs
    else if b < 194 then 65533 :: decodeUtf8F f bs
    else if b < 224 then
      match bs with
      | [] => [65533]
      | b1 :: bs1 =>
        if utf8Cont b1 then ((b - 192) * 64 + (b1 - 128)) :: decodeUtf8F f bs1
        else 65533 :: decodeUtf8F f bs
    else if b < 240 then
      match bs with
      | [] => [65533]
      | b1 :: bs1 =>
        let lo := if b = 224 then 160 else 128
        let hi := if b = 237 then 160 else 192
        if lo ≤ b1 && b1 < hi then
          match bs1 with
          | [] => [65533]
          | b2 :: bs2 =>
            if utf8Cont b2 then
              ((b - 224) * 4096 + (b1 - 128) * 64 + (b2 - 128)) :: decodeUtf8F f bs2
            else 65533 :: decodeUtf8F f bs1
        else 65533 :: decodeUtf8F f bs
    else if b < 245 then
      match bs with
      | [] => [65533]
      | b1 :: bs1 =>
        let lo := if b = 240 then 144 else 128
        let hi := if b = 244 then 144 else 192
        if lo ≤ b1 && b1 < hi then
          match bs1 with
          | [] => [65533]
          | b2 :: bs2 =>
            if utf8Cont b2 then
              match bs2 with
              | [] => [65533]
              | b3 :: bs3 =>
                if utf8Cont b3 then
                  ((b - 240) * 262144 + (b1 - 128) * 4096 + (b2 - 128) * 64 + (b3 - 128))
                    :: decodeUtf8F f bs3
                else 65533 :: decodeUtf8F f bs2
            else 65533 :: decodeUtf8F f bs1
        else 65533 :: decodeUtf8F f bs
    else 65533 :: decodeUtf8F f bs

/-- Node `buffer.toString('utf-8')`. -/
def decodeUtf8 (bs : List ℕ) : List ℕ := decodeUtf8F bs.length bs

/-- Decoded text of a buffer under one of the four candidate encodings,
as a list of UTF-16 code units. -/
def decodeEnc : BufEncoding → List ℕ → List ℕ
  | .utf16le, bs => decodeUtf16le bs
  | .utf8, bs => decodeUtf8 bs
  | .latin1, bs => decodeLatin1 bs
  | .ascii, bs => decodeAscii bs

/-- `text.startsWith`-style comparison of a pattern against the front of
a code-unit list. -/
def leadsWith : List ℕ → List ℕ → Bool
  | [], _ => true
  | _ :: _, [] => false
  | p :: ps, t :: ts => p == t && leadsWith ps ts

/-- JS `text.includes(pat)`: the pattern occurs contiguously somewhere. -/
def hasRun (pat : List ℕ) : List ℕ → Bool
  | [] => leadsWith pat []
  | t :: ts => leadsWith pat (t :: ts) || hasRun pat ts

/-- The code units of `"firstname"`. -/
def firstnameUnits : List ℕ := [102, 105, 114, 115, 116, 110, 97, 109, 101]

/-- `text.includes(',') || text.includes('\t') || text.includes('firstname')`. -/
def looksLikeCSV (text : List ℕ) : Bool :=
  hasRun [44] text || hasRun [9] text || hasRun firstnameUnits text

/-- The candidate order of the BOM-less heuristic. -/
def encCandidates : List BufEncoding := [.utf16le, .utf8, .latin1, .ascii]

/-- `detectEncoding` (identical in both routes): a UTF-16 BOM (either
endianness, big-endian deliberately approximated by little-endian
decoding) short-circuits to `utf16le`; otherwise the first candidate
whose decoded text looks like CSV wins, with a `utf-8` fallback.
Node's `toString` never throws for these encodings, so the source's
per-candidate `try`/`catch` is dead and not modelled. -/
def detectEncoding (buf : List ℕ) : BufEncoding :=
  if 2 ≤ buf.length && buf.getD 0 0 == 255 && buf.getD 1 0 == 254 then .utf16le
  else if 2 ≤ buf.length && buf.getD 0 0 == 254 && buf.getD 1 0 == 255 then .utf16le
  else
    match encCandidates.find? (fun e => looksLikeCSV (decodeEnc e buf)) with
    | some e => e
    | none => .utf8

/-! ## Specification predicates and concrete witness inputs -/

/-- Invariant of the upload route's grouping pass over the processed
prefix of the rows: every accumulated entry counts exactly the rows with
its key, its stored names concatenate back to its key, and every
processed row's key is present. -/
def invU (processed : List Row) (acc : List (String × GroupU)) : Prop :=
  (∀ e ∈ acc,
      e.2.barcodeCount = (processed.filter (fun r => keyOf r == e.1)).length ∧
      e.2.firstname ++ "_" ++ e.2.lastname = e.1) ∧
  (∀ r ∈ processed, ∃ e ∈ acc, e.1 = keyOf r)

/-- Invariant of the default route's counting pass. -/
def invD (processed : List Row) (acc : List (String × ℕ)) : Prop :=
  (∀ e ∈ acc, e.2 = (processed.filter (fun r => keyOf r == e.1)).length) ∧
  (∀ r ∈ processed, ∃ e ∈ acc, e.1 = keyOf r)

/-- The unrounded total of a person's work-period durations, as the
upload route accumulates it before rounding. -/
def totalHoursOf (p : PersonU) : Option Frac :=
  p.work_periods.foldl (fun s q => addN s q.duration_hours) (some (qOfNat 0))

/-- A concrete scan row (all four columns present). -/
def wRow1 : Row :=
  [("firstname", "Ann"), ("lastname", "Lee"), ("BarcodeRangeID", "1"),
   ("TimeEntered", "09:00:00.000")]

/-- A second scan of the same person, 3 seconds later. -/
def wRow2 : Row :=
  [("firstname", "Ann"), ("lastname", "Lee"), ("BarcodeRangeID", "2"),
   ("TimeEntered", "09:00:03.000")]

/-- A scan row of a second person. -/
def wRow3 : Row :=
  [("firstname", "Bob"), ("lastname", "Fox"), ("BarcodeRangeID", "3"),
   ("TimeEntered", "10:00:00.000")]

/-- A row whose `lastname` column is absent. -/
def wRowNoLast : Row :=
  [("firstname", "Ann"), ("BarcodeRangeID", "1"), ("TimeEntered", "09:00:00.000")]

/-- A row whose `firstname` value itself contains an underscore. -/
def wRowUnd : Row :=
  [("firstname", "a_b"), ("lastname", "c"), ("BarcodeRangeID", "1")]

/-- The upload-route person produced by `[wRow1]` alone. -/
def wPerson1 : PersonU :=
  ⟨"Ann", "Lee", 1, some ⟨0, 1⟩, some ⟨0, 1⟩,
   [⟨"09:00:00.000", "09:00:00.000", some ⟨0, 1⟩, 1⟩]⟩

/-- The upload-route person produced for Ann by `[wRow1, wRow2, wRow3]`. -/
def wPersonAnn : PersonU :=
  ⟨"Ann", "Lee", 2, some ⟨0, 1⟩, some ⟨2400, 1⟩,
   [⟨"09:00:00.000", "09:00:03.000", some ⟨1, 1200⟩, 2⟩]⟩

/-- The default-route person produced for Ann by `[wRow1, wRow2, wRow3]`. -/
def wPersonAnnD : PersonD := ⟨"Ann", "Lee", 2⟩

/-! ## General lemmas about the stable sort -/

/-- `insertionSort` sorts, stated for an explicitly total and transitive
relation. -/
theorem pairwise_insertionSort {α : Type} (r : α → α → Prop) [DecidableRel r]
    (htot : ∀ a b, r a b ∨ r b a) (htr : ∀ a b c, r a b → r b c → r a c) (l : List α) :
    (List.insertionSort r l).Pairwise r := by
  haveI : IsTotal α r := ⟨htot⟩
  haveI : IsTrans α r := ⟨fun a b c => htr a b c⟩
  exact List.sorted_insertionSort r l

/-- Stability of `insertionSort`, in filter form: restricted to any class
of mutually `r`-comparable elements, the sort is the identity on relative
order. -/
theorem filter_insertionSort {α : Type} (r : α → α → Prop) [DecidableRel r] (p : α → Bool)
    (hp : ∀ a b, p a = true → p b = true → r a b) (l : List α) :
    (List.insertionSort r l).filter p = l.filter p := by
  have hpw : (l.filter p).Pairwise r :=
    List.pairwise_of_forall_mem_list (fun a ha b hb =>
      hp a b (List.mem_filter.mp ha).2 (List.mem_filter.mp hb).2)
  have hsub : List.Sublist (l.filter p) (List.insertionSort r l) :=
    List.sublist_insertionSort hpw (List.filter_sublist l)
  have hself : (l.filter p).filter p = l.filter p :=
    List.filter_eq_self.mpr (fun a ha => (List.mem_filter.mp ha).2)
  have h1 : List.Sublist ((l.filter p).filter p) ((List.insertionSort r l).filter p) :=
    hsub.filter p
  rw [hself] at h1
  have hlen : ((List.insertionSort r l).filter p).length = (l.filter p).length :=
    ((List.perm_insertionSort r l).filter p).length_eq
  exact (h1.eq_of_length hlen.symm).symm

/-- Folding `+ f a` over a list starting from `n` is `n` plus the sum of
the image (the shape of the `reduce` calls computing `total_ranges`). -/
theorem foldl_add_count {α : Type} (f : α → ℕ) :
    ∀ (l : List α) (n : ℕ), l.foldl (fun s a => s + f a) n = n + (l.map f).sum
  | [], n => by simp
  | a :: l, n => by
    simp only [List.foldl_cons, List.map_cons, List.sum_cons]
    rw [foldl_add_count f l (n + f a)]
    omega

/-! ## The grouping invariants -/

theorem stepU_inv {processed : List Row} {acc : List (String × GroupU)} (row : Row)
    (h : invU processed acc) : invU (processed ++ [row]) (stepU acc row) := by
  obtain ⟨hcnt, hkeys⟩ := h
  unfold stepU
  by_cases hany : acc.any (fun e => e.1 == keyOf row) = true
  · rw [if_pos hany]
    constructor
    · intro e' he'
      obtain ⟨e, he, rfl⟩ := List.mem_map.mp he'
      obtain ⟨hc, hn⟩ := hcnt e he
      cases hk : (e.1 == keyOf row) with
      | true =>
        have hk' : e.1 = keyOf row := eq_of_beq hk
        simp only [hk, ite_true]
        refine ⟨?_, by simpa using hn⟩
        simp [List.filter_append, hc, hk', List.filter_cons]
      | false =>
        simp only [hk, Bool.false_eq_true, ite_false]
        refine ⟨?_, hn⟩
        have hne : (keyOf row == e.1) = false :=
          beq_eq_false_iff_ne.mpr (Ne.symm (beq_eq_false_iff_ne.mp hk))
        simp [List.filter_append, hc, List.filter_cons, hne]
    · intro r hr
      rcases List.mem_append.mp hr with hr | hr
      · obtain ⟨e, he, hk⟩ := hkeys r hr
        refine ⟨(if e.1 == keyOf row then
          (e.1, { e.2 with timeEntries := e.2.timeEntries ++ [jsField row "TimeEntered"],
                           barcodeCount := e.2.barcodeCount + 1 }) else e), ?_, ?_⟩
        · exact List.mem_map.mpr ⟨e, he, by split <;> rfl⟩
        · split <;> exact hk
      · have hr' : r = row := by simpa using hr
        subst hr'
        obtain ⟨e, he, hk⟩ := List.any_eq_true.mp hany
        refine ⟨(if e.1 == keyOf r then
          (e.1, { e.2 with timeEntries := e.2.timeEntries ++ [jsField r "TimeEntered"],
                           barcodeCount := e.2.barcodeCount + 1 }) else e), ?_, ?_⟩
        · exact List.mem_map.mpr ⟨e, he, by split <;> rfl⟩
        · split <;> exact eq_of_beq hk
  · rw [if_neg hany]
    have hnone : ∀ e ∈ acc, (e.1 == keyOf row) = false := by
      intro e he
      cases hb : (e.1 == keyOf row) with
      | false => rfl
      | true => exact absurd (List.any_eq_true.mpr ⟨e, he, hb⟩) hany
    constructor
    · intro e he
      rcases List.mem_append.mp he with he | he
      · obtain ⟨hc, hn⟩ := hcnt e he
        have hne : (keyOf row == e.1) = false :=
          beq_eq_false_iff_ne.mpr (Ne.symm (beq_eq_false_iff_ne.mp (hnone e he)))
        exact ⟨by simp [List.filter_append, hc, List.filter_cons, hne], hn⟩
      · have he' : e = (keyOf row,
            ⟨jsField row "firstname", jsField row "lastname", [jsField row "TimeEntered"], 1⟩) := by
          simpa using he
        subst he'
        refine ⟨?_, rfl⟩
        have hzero : processed.filter (fun r => keyOf r == keyOf row) = [] := by
          rw [List.filter_eq_nil_iff]
          intro r hr
          obtain ⟨e, he, hk⟩ := hkeys r hr
          rw [← hk]
          exact fun hb => absurd (hnone e he) (by simp [eq_of_beq hb])
        simp [List.filter_append, hzero, List.filter_cons]
    · intro r hr
      rcases List.mem_append.mp hr with hr | hr
      · obtain ⟨e, he, hk⟩ := hkeys r hr
        exact ⟨e, List.mem_append.mpr (Or.inl he), hk⟩
      · have hr' : r = row := by simpa using hr
        subst hr'
        exact ⟨(keyOf r,
          ⟨jsField r "firstname", jsField r "lastname", [jsField r "TimeEntered"], 1⟩),
          List.mem_append.mpr (Or.inr (by simp)), rfl⟩

theorem groupU_inv (data : List Row) : invU data (groupU data) := by
  induction data using List.reverseRecOn with
  | nil => exact ⟨by simp [groupU], by simp⟩
  | append_singleton l a ih =>
    have : groupU (l ++ [a]) = stepU (groupU l) a := by
      simp [groupU, List.foldl_append]
    rw [this]
    exact stepU_inv a ih

theorem stepD_inv {processed : List Row} {acc : List (String × ℕ)} (row : Row)
    (h : invD processed acc) : invD (processed ++ [row]) (stepD acc row) := by
  obtain ⟨hcnt, hkeys⟩ := h
  unfold stepD
  by_cases hany : acc.any (fun e => e.1 == keyOf row) = true
  · rw [if_pos hany]
    constructor
    · intro e' he'
      obtain ⟨e, he, rfl⟩ := List.mem_map.mp he'
      have hc := hcnt e he
      cases hk : (e.1 == keyOf row) with
      | true =>
        have hk' : e.1 = keyOf row := eq_of_beq hk
        simp only [hk, ite_true]
        simp [List.filter_append, hc, hk', List.filter_cons]
      | false =>
        simp only [hk, Bool.false_eq_true, ite_false]
        have hne : (keyOf row == e.1) = false :=
          beq_eq_false_iff_ne.mpr (Ne.symm (beq_eq_false_iff_ne.mp hk))
        simp [List.filter_append, hc, List.filter_cons, hne]
    · intro r hr
      rcases List.mem_append.mp hr with hr | hr
      · obtain ⟨e, he, hk⟩ := hkeys r hr
        refine ⟨(if e.1 == keyOf row then (e.1, e.2 + 1) else e), ?_, ?_⟩
        · exact List.mem_map.mpr ⟨e, he, by split <;> rfl⟩
        · split <;> exact hk
      · have hr' : r = row := by simpa using hr
        subst hr'
        obtain ⟨e, he, hk⟩ := List.any_eq_true.mp hany
        refine ⟨(if e.1 == keyOf r then (e.1, e.2 + 1) else e), ?_, ?_⟩
        · exact List.mem_map.mpr ⟨e, he, by split <;> rfl⟩
        · split <;> exact eq_of_beq hk
  · rw [if_neg hany]
    have hnone : ∀ e ∈ acc, (e.1 == keyOf row) = false := by
      intro e he
      cases hb : (e.1 == keyOf row) with
      | false => rfl
      | true => exact absurd (List.any_eq_true.mpr ⟨e, he, hb⟩) hany
    constructor
    · intro e he
      rcases List.mem_append.mp he with he | he
      · have hc := hcnt e he
        have hne : (keyOf row == e.1) = false :=
          beq_eq_false_iff_ne.mpr (Ne.symm (beq_eq_false_iff_ne.mp (hnone e he)))
        simp [List.filter_append, hc, List.filter_cons, hne]
      · have he' : e = (keyOf row, 1) := by simpa using he
        subst he'
        have hzero : processed.filter (fun r => keyOf r == keyOf row) = [] := by
          rw [List.filter_eq_nil_iff]
          intro r hr
          obtain ⟨e, he, hk⟩ := hkeys r hr
          rw [← hk]
          exact fun hb => absurd (hnone e he) (by simp [eq_of_beq hb])
        simp [List.filter_append, hzero, List.filter_cons]
    · intro r hr
      rcases List.mem_append.mp hr with hr | hr
      · obtain ⟨e, he, hk⟩ := hkeys r hr
        exact ⟨e, List.mem_append.mpr (Or.inl he), hk⟩
      · have hr' : r = row := by simpa using hr
        subst hr'
        exact ⟨(keyOf r, 1), List.mem_append.mpr (Or.inr (by simp)), rfl⟩

theorem groupD_inv (data : List Row) : invD data (groupD data) := by
  induction data using List.reverseRecOn with
  | nil => exact ⟨by simp [groupD], by simp⟩
  | append_singleton l a ih =>
    have : groupD (l ++ [a]) = stepD (groupD l) a := by
      simp [groupD, List.foldl_append]
    rw [this]
    exact stepD_inv a ih

/-! ## Inverting the envelopes -/

theorem analyzeU_data_eq {errs : List String} {data : List Row} {now : String}
    {d : AnalysisData PersonU} (h : (analyzeBarcodesU errs data now).data = some d) :
    d = mkPayloadU data now := by
  cases errs with
  | nil =>
    unfold analyzeBarcodesU at h
    cases hm : missingColumns requiredColumnsU data with
    | nil => rw [hm] at h; exact (Option.some_inj.mp h).symm
    | cons m ms => rw [hm] at h; exact absurd h (by simp)
  | cons e es => exact absurd h (by simp [analyzeBarcodesU])

theorem analyzeD_data_eq {errs : List String} {data : List Row} {now : String}
    {d : AnalysisData PersonD} (h : (analyzeBarcodesD errs data now).data = some d) :
    d = mkPayloadD data now := by
  cases errs with
  | nil =>
    unfold analyzeBarcodesD at h
    cases hm : missingColumns requiredColumnsD data with
    | nil => rw [hm] at h; exact (Option.some_inj.mp h).symm
    | cons m ms => rw [hm] at h; exact absurd h (by simp)
  | cons e es => exact absurd h (by simp [analyzeBarcodesD])

theorem peopleOf_analyzeU (errs : List String) (data : List Row) (now : String) :
    peopleOf (analyzeBarcodesU errs data now) = [] ∨
    peopleOf (analyzeBarcodesU errs data now) = peopleDataU data := by
  cases h : (analyzeBarcodesU errs data now).data with
  | none => left; simp [peopleOf, h]
  | some d => right; rw [analyzeU_data_eq h] at h; simp [peopleOf, h, mkPayloadU]

theorem peopleOf_analyzeD (errs : List String) (data : List Row) (now : String) :
    peopleOf (analyzeBarcodesD errs data now) = [] ∨
    peopleOf (analyzeBarcodesD errs data now) = peopleDataD data := by
  cases h : (analyzeBarcodesD errs data now).data with
  | none => left; simp [peopleOf, h]
  | some d => right; rw [analyzeD_data_eq h] at h; simp [peopleOf, h, mkPayloadD]

theorem analyzeU_success_data {errs : List String} {data : List Row} {now : String}
    (h : (analyzeBarcodesU errs data now).success = true) :
    (analyzeBarcodesU errs data now).data = some (mkPayloadU data now) := by
  cases errs with
  | nil =>
    unfold analyzeBarcodesU at h ⊢
    cases hm : missingColumns requiredColumnsU data with
    | nil => rfl
    | cons m ms => rw [hm] at h; exact absurd h (by simp)
  | cons e es => exact absurd h (by simp [analyzeBarcodesU])

theorem analyzeD_success_data {errs : List String} {data : List Row} {now : String}
    (h : (analyzeBarcodesD errs data now).success = true) :
    (analyzeBarcodesD errs data now).data = some (mkPayloadD data now) := by
  cases errs with
  | nil =>
    unfold analyzeBarcodesD at h ⊢
    cases hm : missingColumns requiredColumnsD data with
    | nil => rfl
    | cons m ms => rw [hm] at h; exact absurd h (by simp)
  | cons e es => exact absurd h (by simp [analyzeBarcodesD])


/-! ## The claims -/

/-- C1.  Work-period reconstruction (upload path): on the timestamp list
`["09:00:00.000","09:10:00.000","09:50:00.000"]`, `calculateWorkPeriods`
returns exactly two periods — `09:00:00`–`09:10:00` with duration `1/6` h
(`0.1667` to four decimal places) and 2 scans, and `09:50:00`–`09:50:00`
with duration `0` h and 1 scan — because the `09:10`→`09:50` gap is 40
minutes, which exceeds 30; timestamps are parsed as
`hours*60 + minutes + seconds/60` with the fractional-millisecond part
discarded, and each period's duration is
`(end_minutes - start_minutes)/60`. -/
theorem claim_C1_work_period_reconstruction :
    calculateWorkPeriods ["09:00:00.000", "09:10:00.000", "09:50:00.000"] =
      [⟨"09:00:00.000", "09:10:00.000", some ⟨1, 6⟩, 2⟩,
       ⟨"09:50:00.000", "09:50:00.000", some ⟨0, 1⟩, 1⟩] ∧
    subN (parseTimeToMinutes "09:50:00.000") (parseTimeToMinutes "09:10:00.000") =
      some ⟨40, 1⟩ ∧
    gtN (some ⟨40, 1⟩) (qOfNat 30) = true ∧
    subN (parseTimeToMinutes "09:10:00.000") (parseTimeToMinutes "09:00:00.000") =
      some ⟨10, 1⟩ ∧
    qDiv ⟨10, 1⟩ (qOfNat 60) = ⟨1, 6⟩ ∧
    jsRound (qMul ⟨1, 6⟩ (qOfNat 10000)) = 1667 ∧
    parseTimeToMinutes "09:10:30.999" =
      some (qAdd (qAdd (qMul ⟨9, 1⟩ ⟨60, 1⟩) ⟨10, 1⟩) (qDiv ⟨30, 1⟩ ⟨60, 1⟩)) := by
  decide

/-- C2 (counterexample).  The claim "if `total_hours_worked` is 0 then
`barcodes_per_hour` is 0" fails on the code: two scans 3 seconds apart
give an unrounded total of `1/1200` h, so the `total_hours_worked` field
rounds to 0 while `barcodes_per_hour` is 2400. -/
theorem claim_C2_counterexample :
    (analyzeBarcodesU [] [wRow1, wRow2] "t").success = true ∧
    ((analyzeBarcodesU [] [wRow1, wRow2] "t").data.map fun d =>
        d.people_data.map fun p => (p.total_hours_worked, p.barcodes_per_hour)) =
      some [(some (qOfNat 0), some ⟨2400, 1⟩)] ∧
    (⟨2400, 1⟩ : Frac) ≠ qOfNat 0 := by
  decide

/-- The rate computation of `mkPersonU`, keyed to the unrounded duration
total rather than to the rounded output field. -/
theorem mkPersonU_rate (g : GroupU) :
    (gtN (totalHoursOf (mkPersonU g)) (qOfNat 0) = false →
      (mkPersonU g).barcodes_per_hour = some (qOfNat 0)) ∧
    (∀ x, totalHoursOf (mkPersonU g) = some x →
      gtN (totalHoursOf (mkPersonU g)) (qOfNat 0) = true →
      x.num ≠ 0 ∧ (mkPersonU g).barcodes_per_hour =
        some (round2 (qDiv (qOfNat (mkPersonU g).barcode_range_count) x))) := by
  have hth : totalHoursOf (mkPersonU g) =
      (calculateWorkPeriods g.timeEntries).foldl
        (fun s q => addN s q.duration_hours) (some (qOfNat 0)) := rfl
  have hproj : (mkPersonU g).barcodes_per_hour =
      roundN2 (if gtN ((calculateWorkPeriods g.timeEntries).foldl
            (fun s q => addN s q.duration_hours) (some (qOfNat 0))) (qOfNat 0)
          then divN (some (qOfNat g.barcodeCount))
            ((calculateWorkPeriods g.timeEntries).foldl
              (fun s q => addN s q.duration_hours) (some (qOfNat 0)))
          else some (qOfNat 0)) := rfl
  have hcount : (mkPersonU g).barcode_range_count = g.barcodeCount := rfl
  constructor
  · intro hg
    rw [hth] at hg
    rw [hproj, if_neg (by simp [hg])]
    decide
  · intro x hx hgt
    rw [hth] at hx hgt
    have hgt2 : gtN (some x) (qOfNat 0) = true := hx ▸ hgt
    have hnum : (0 : ℤ) < x.num := by
      have hgt' : qBlt (qOfNat 0) x = true := hgt2
      simp only [qBlt, qOfNat, decide_eq_true_eq] at hgt'
      simpa using hgt'
    refine ⟨by omega, ?_⟩
    rw [hproj, if_pos hgt, hx, hcount]
    simp only [divN]
    rw [if_neg (by omega)]
    rfl

/-- C2 (amended).  For every person in an upload-path result: if the
unrounded sum of the person's work-period durations is not positive, the
rate is 0; when the sum is a positive value `x`, the rate is
scans ÷ `x` rounded to two decimals and `x` is nonzero, so the division
is never by zero.  (The rounded `total_hours_worked` output field can be
0 while `barcodes_per_hour` is positive, as `claim_C2_counterexample`
shows.) -/
theorem claim_C2_rate_zero_guard (errs : List String) (data : List Row) (now : String)
    (p : PersonU) (hp : p ∈ peopleOf (analyzeBarcodesU errs data now)) :
    (gtN (totalHoursOf p) (qOfNat 0) = false → p.barcodes_per_hour = some (qOfNat 0)) ∧
    (∀ x, totalHoursOf p = some x → gtN (totalHoursOf p) (qOfNat 0) = true →
      x.num ≠ 0 ∧ p.barcodes_per_hour =
        some (round2 (qDiv (qOfNat p.barcode_range_count) x))) := by
  rcases peopleOf_analyzeU errs data now with h | h
  · rw [h] at hp
    exact absurd hp (List.not_mem_nil p)
  · rw [h] at hp
    rw [peopleDataU, List.mem_insertionSort] at hp
    obtain ⟨e, _, rfl⟩ := List.mem_map.mp hp
    exact mkPersonU_rate e.2

/-- Witness for C2 (amended): a single scan gives zero total hours and a
zero rate. -/
theorem claim_C2_rate_zero_guard_witness :
    wPerson1 ∈ peopleOf (analyzeBarcodesU [] [wRow1] "t") ∧
    wPerson1.barcodes_per_hour = some (qOfNat 0) :=
  ⟨by decide,
   (claim_C2_rate_zero_guard [] [wRow1] "t" wPerson1 (by decide)).1 (by decide)⟩

/-- C9.  Default endpoint: when the bundled file is absent the handler
returns `success:false` with error exactly `"Default file not found"`
(and, being a total function, raises nothing); when it exists and
analysis succeeds, the envelope's `filename` is the literal
`"Taskmaster.csv"`. -/
theorem claim_C9_default_file_absence :
    (∀ (errs : List String) (data : List Row) (now : String),
      getDefault false errs data now = ⟨false, none, some "Default file not found"⟩) ∧
    (∀ (errs : List String) (data : List Row) (now : String) (d : AnalysisData PersonD),
      (getDefault true errs data now).data = some d → d.filename = "Taskmaster.csv") := by
  constructor
  · intro errs data now
    rfl
  · intro errs data now d h
    have h' : (analyzeBarcodesD errs data now).data = some d := h
    rw [analyzeD_data_eq h']
    rfl

/-- Witness for C9: both branches at concrete inputs. -/
theorem claim_C9_default_file_absence_witness :
    getDefault false [] [] "t" = ⟨false, none, some "Default file not found"⟩ ∧
    (mkPayloadD [wRow1] "t").filename = "Taskmaster.csv" :=
  ⟨claim_C9_default_file_absence.1 [] [] "t",
   claim_C9_default_file_absence.2 [] [wRow1] "t" (mkPayloadD [wRow1] "t") (by decide)⟩


/-- `peopleOf` of a successful upload-route run is the sorted list. -/
theorem peopleOf_successU {errs : List String} {data : List Row} {now : String}
    (h : (analyzeBarcodesU errs data now).success = true) :
    peopleOf (analyzeBarcodesU errs data now) = peopleDataU data := by
  unfold peopleOf
  rw [analyzeU_success_data h]
  rfl

/-- `peopleOf` of a successful default-route run is the sorted list. -/
theorem peopleOf_successD {errs : List String} {data : List Row} {now : String}
    (h : (analyzeBarcodesD errs data now).success = true) :
    peopleOf (analyzeBarcodesD errs data now) = peopleDataD data := by
  unfold peopleOf
  rw [analyzeD_success_data h]
  rfl

/-- `leU` is total. -/
theorem leU_total : ∀ a b : PersonU, leU a b ∨ leU b a := fun a b =>
  Nat.le_total b.barcode_range_count a.barcode_range_count

/-- `leU` is transitive. -/
theorem leU_trans : ∀ a b c : PersonU, leU a b → leU b c → leU a c :=
  fun _ _ _ hab hbc => le_trans hbc hab

/-- `leD` is total. -/
theorem leD_total : ∀ a b : PersonD, leD a b ∨ leD b a := fun a b =>
  Nat.le_total b.barcode_range_count a.barcode_range_count

/-- `leD` is transitive. -/
theorem leD_trans : ∀ a b c : PersonD, leD a b → leD b c → leD a c :=
  fun _ _ _ hab hbc => le_trans hbc hab

/-- C3.  Sorting invariant (both endpoints): `people_data` is
non-increasing in `barcode_range_count` (adjacent pairs), and on success
the entries of any fixed count keep the stable relative order in which
their keys were first encountered during the grouping pass. -/
theorem claim_C3_sorting_invariant (errs : List String) (data : List Row) (now : String) :
    List.Chain' (fun a b => b.barcode_range_count ≤ a.barcode_range_count)
      (peopleOf (analyzeBarcodesU errs data now)) ∧
    ((analyzeBarcodesU errs data now).success = true → ∀ c : ℕ,
      (peopleOf (analyzeBarcodesU errs data now)).filter
          (fun p => p.barcode_range_count == c) =
        ((groupU data).map (fun e => mkPersonU e.2)).filter
          (fun p => p.barcode_range_count == c)) ∧
    List.Chain' (fun a b => b.barcode_range_count ≤ a.barcode_range_count)
      (peopleOf (analyzeBarcodesD errs data now)) ∧
    ((analyzeBarcodesD errs data now).success = true → ∀ c : ℕ,
      (peopleOf (analyzeBarcodesD errs data now)).filter
          (fun p => p.barcode_range_count == c) =
        ((groupD data).map (fun e => mkPersonD e.1 e.2)).filter
          (fun p => p.barcode_range_count == c)) := by
  refine ⟨?_, ?_, ?_, ?_⟩
  · rcases peopleOf_analyzeU errs data now with h | h <;> rw [h]
    · exact List.chain'_nil
    · exact (pairwise_insertionSort leU leU_total leU_trans _).chain'
  · intro hs c
    rw [peopleOf_successU hs, peopleDataU]
    exact filter_insertionSort leU (fun p => p.barcode_range_count == c)
      (fun a b ha hb => by
        have ha' := eq_of_beq ha
        have hb' := eq_of_beq hb
        show b.barcode_range_count ≤ a.barcode_range_count
        omega) _
  · rcases peopleOf_analyzeD errs data now with h | h <;> rw [h]
    · exact List.chain'_nil
    · exact (pairwise_insertionSort leD leD_total leD_trans _).chain'
  · intro hs c
    rw [peopleOf_successD hs, peopleDataD]
    exact filter_insertionSort leD (fun p => p.barcode_range_count == c)
      (fun a b ha hb => by
        have ha' := eq_of_beq ha
        have hb' := eq_of_beq hb
        show b.barcode_range_count ≤ a.barcode_range_count
        omega) _

/-- Witness for C3 at a concrete three-row input (counts 2 and 1). -/
theorem claim_C3_sorting_invariant_witness :
    List.Chain' (fun a b => b.barcode_range_count ≤ a.barcode_range_count)
      (peopleOf (analyzeBarcodesU [] [wRow1, wRow3, wRow2] "t")) ∧
    (peopleOf (analyzeBarcodesU [] [wRow1, wRow3, wRow2] "t")).filter
        (fun p => p.barcode_range_count == 1) =
      ((groupU [wRow1, wRow3, wRow2]).map (fun e => mkPersonU e.2)).filter
        (fun p => p.barcode_range_count == 1) :=
  ⟨(claim_C3_sorting_invariant [] [wRow1, wRow3, wRow2] "t").1,
   (claim_C3_sorting_invariant [] [wRow1, wRow3, wRow2] "t").2.1 (by decide) 1⟩

/-- C4.  Statistics consistency (both endpoints): in every successful
result, `total_ranges` is the sum of the output counts, `total_people`
is the output length, and `average_ranges_per_person` is
`total_ranges/total_people` rounded to two decimals, or 0 when
`total_people` is 0. -/
theorem claim_C4_statistics_consistency (errs : List String) (data : List Row) (now : String) :
    (∀ d, (analyzeBarcodesU errs data now).data = some d →
      d.statistics.total_people = d.people_data.length ∧
      d.statistics.total_ranges =
        (d.people_data.map (fun p => p.barcode_range_count)).sum ∧
      d.statistics.average_ranges_per_person =
        (if d.people_data.length = 0 then qOfNat 0
         else round2 (qDiv (qOfNat d.statistics.total_ranges)
           (qOfNat d.people_data.length)))) ∧
    (∀ d, (analyzeBarcodesD errs data now).data = some d →
      d.statistics.total_people = d.people_data.length ∧
      d.statistics.total_ranges =
        (d.people_data.map (fun p => p.barcode_range_count)).sum ∧
      d.statistics.average_ranges_per_person =
        (if d.people_data.length = 0 then qOfNat 0
         else round2 (qDiv (qOfNat d.statistics.total_ranges)
           (qOfNat d.people_data.length)))) := by
  constructor
  · intro d h
    rw [analyzeU_data_eq h]
    refine ⟨rfl, ?_, ?_⟩
    · show (peopleDataU data).foldl (fun s p => s + p.barcode_range_count) 0 = _
      rw [foldl_add_count]
      simp [mkPayloadU]
    · by_cases hlen : (peopleDataU data).length = 0
      · simp only [mkPayloadU, statsU, hlen, lt_self_iff_false, ite_false,
          eq_self_iff_true, if_true]
        decide
      · have h2 : 0 < (peopleDataU data).length := Nat.pos_of_ne_zero hlen
        simp only [mkPayloadU, statsU, hlen, h2, ite_false, ite_true]
  · intro d h
    rw [analyzeD_data_eq h]
    refine ⟨rfl, ?_, ?_⟩
    · show (peopleDataD data).foldl (fun s p => s + p.barcode_range_count) 0 = _
      rw [foldl_add_count]
      simp [mkPayloadD]
    · by_cases hlen : (peopleDataD data).length = 0
      · simp only [mkPayloadD, statsD, hlen, lt_self_iff_false, ite_false,
          eq_self_iff_true, if_true]
        decide
      · have h2 : 0 < (peopleDataD data).length := Nat.pos_of_ne_zero hlen
        simp only [mkPayloadD, statsD, hlen, h2, ite_false, ite_true]

/-- Witness for C4 at a concrete three-row input. -/
theorem claim_C4_statistics_consistency_witness :
    (mkPayloadU [wRow1, wRow3, wRow2] "t").statistics.total_people =
      (mkPayloadU [wRow1, wRow3, wRow2] "t").people_data.length ∧
    (mkPayloadD [wRow1, wRow3, wRow2] "t").statistics.total_ranges =
      ((mkPayloadD [wRow1, wRow3, wRow2] "t").people_data.map
        (fun p => p.barcode_range_count)).sum :=
  ⟨((claim_C4_statistics_consistency [] [wRow1, wRow3, wRow2] "t").1 _ (by decide)).1,
   ((claim_C4_statistics_consistency [] [wRow1, wRow3, wRow2] "t").2 _ (by decide)).2.1⟩

/-- C5.  Per-person count invariant (both endpoints): every output
person's `barcode_range_count` equals the number of parsed rows whose
`firstname_lastname` key equals that person's key (for the default route,
the person is built from its grouping key, whose rows it counts
exactly). -/
theorem claim_C5_per_person_counts :
    (∀ (errs : List String) (data : List Row) (now : String) (p : PersonU),
      p ∈ peopleOf (analyzeBarcodesU errs data now) →
      p.barcode_range_count =
        (data.filter (fun r => keyOf r == p.firstname ++ "_" ++ p.lastname)).length) ∧
    (∀ (errs : List String) (data : List Row) (now : String) (q : PersonD),
      q ∈ peopleOf (analyzeBarcodesD errs data now) →
      ∃ k, q = mkPersonD k ((data.filter (fun r => keyOf r == k)).length)) := by
  constructor
  · intro errs data now p hp
    rcases peopleOf_analyzeU errs data now with h | h
    · rw [h] at hp
      exact absurd hp (List.not_mem_nil p)
    · rw [h, peopleDataU, List.mem_insertionSort] at hp
      obtain ⟨e, he, rfl⟩ := List.mem_map.mp hp
      obtain ⟨hc, hn⟩ := (groupU_inv data).1 e he
      have hf : (mkPersonU e.2).firstname = e.2.firstname := rfl
      have hl : (mkPersonU e.2).lastname = e.2.lastname := rfl
      have hcnt : (mkPersonU e.2).barcode_range_count = e.2.barcodeCount := rfl
      rw [hcnt, hf, hl, hn, hc]
  · intro errs data now q hq
    rcases peopleOf_analyzeD errs data now with h | h
    · rw [h] at hq
      exact absurd hq (List.not_mem_nil q)
    · rw [h, peopleDataD, List.mem_insertionSort] at hq
      obtain ⟨e, he, rfl⟩ := List.mem_map.mp hq
      have hc := (groupD_inv data).1 e he
      exact ⟨e.1, by rw [← hc]⟩

/-- Witness for C5: Ann has two scans among three concrete rows, on both
pipelines. -/
theorem claim_C5_per_person_counts_witness :
    wPersonAnn.barcode_range_count =
      ([wRow1, wRow2, wRow3].filter
        (fun r => keyOf r == wPersonAnn.firstname ++ "_" ++ wPersonAnn.lastname)).length ∧
    ∃ k, wPersonAnnD = mkPersonD k
      (([wRow1, wRow2, wRow3].filter (fun r => keyOf r == k)).length) :=
  ⟨claim_C5_per_person_counts.1 [] [wRow1, wRow2, wRow3] "t" wPersonAnn (by decide),
   claim_C5_per_person_counts.2 [] [wRow1, wRow2, wRow3] "t" wPersonAnnD (by decide)⟩

/-- C6.  Missing-column rejection (both endpoints): with a clean parse,
if any required column is missing from the first parsed row (upload:
`firstname`, `lastname`, `BarcodeRangeID`, `TimeEntered`; default: the
first three), the result is `success:false` with an error naming exactly
the missing columns; in particular a first row without `lastname` puts
`lastname` among them and fails both endpoints. -/
theorem claim_C6_missing_columns (data : List Row) (now : String) :
    (missingColumns requiredColumnsU data ≠ [] →
      analyzeBarcodesU [] data now = ⟨false, none,
        some ("Missing required columns: " ++
          String.intercalate ", " (missingColumns requiredColumnsU data))⟩) ∧
    (missingColumns requiredColumnsD data ≠ [] →
      analyzeBarcodesD [] data now = ⟨false, none,
        some ("Missing required columns: " ++
          String.intercalate ", " (missingColumns requiredColumnsD data))⟩) ∧
    (∀ r0 rest, data = r0 :: rest → rowHasCol r0 "lastname" = false →
      "lastname" ∈ missingColumns requiredColumnsU data ∧
      "lastname" ∈ missingColumns requiredColumnsD data ∧
      (analyzeBarcodesU [] data now).success = false ∧
      (analyzeBarcodesD [] data now).success = false) := by
  have hU : missingColumns requiredColumnsU data ≠ [] →
      analyzeBarcodesU [] data now = ⟨false, none,
        some ("Missing required columns: " ++
          String.intercalate ", " (missingColumns requiredColumnsU data))⟩ := by
    intro h
    unfold analyzeBarcodesU
    cases hm : missingColumns requiredColumnsU data with
    | nil => exact absurd hm h
    | cons m ms => rfl
  have hD : missingColumns requiredColumnsD data ≠ [] →
      analyzeBarcodesD [] data now = ⟨false, none,
        some ("Missing required columns: " ++
          String.intercalate ", " (missingColumns requiredColumnsD data))⟩ := by
    intro h
    unfold analyzeBarcodesD
    cases hm : missingColumns requiredColumnsD data with
    | nil => exact absurd hm h
    | cons m ms => rfl
  refine ⟨hU, hD, ?_⟩
  intro r0 rest hdata hnc
  subst hdata
  have hmemU : "lastname" ∈ missingColumns requiredColumnsU (r0 :: rest) := by
    apply List.mem_filter.mpr
    refine ⟨by decide, ?_⟩
    show (match (r0 :: rest).head? with
          | none => true
          | some r1 => ! rowHasCol r1 "lastname") = true
    simp [hnc]
  have hmemD : "lastname" ∈ missingColumns requiredColumnsD (r0 :: rest) := by
    apply List.mem_filter.mpr
    refine ⟨by decide, ?_⟩
    show (match (r0 :: rest).head? with
          | none => true
          | some r1 => ! rowHasCol r1 "lastname") = true
    simp [hnc]
  refine ⟨hmemU, hmemD, ?_, ?_⟩
  · rw [hU (List.ne_nil_of_mem hmemU)]
  · rw [hD (List.ne_nil_of_mem hmemD)]

/-- Witness for C6 at a concrete row without a `lastname` column. -/
theorem claim_C6_missing_columns_witness :
    analyzeBarcodesU [] [wRowNoLast] "t" = ⟨false, none,
      some ("Missing required columns: " ++
        String.intercalate ", " (missingColumns requiredColumnsU [wRowNoLast]))⟩ ∧
    "lastname" ∈ missingColumns requiredColumnsU [wRowNoLast] :=
  ⟨(claim_C6_missing_columns [wRowNoLast] "t").1 (by decide),
   ((claim_C6_missing_columns [wRowNoLast] "t").2.2 wRowNoLast [] rfl (by decide)).1⟩


/-! ## Lemmas for encoding detection -/

/-- Every code unit decoded from little-endian pairs of bytes in
`1..127` is at least 256 (the high byte is nonzero). -/
theorem decodeUtf16le_units : ∀ (bs : List ℕ), (∀ b ∈ bs, 1 ≤ b ∧ b ≤ 127) →
    ∀ u ∈ decodeUtf16le bs, 256 ≤ u
  | [], _, u, hu => by simp [decodeUtf16le] at hu
  | [b], _, u, hu => by simp [decodeUtf16le] at hu
  | b0 :: b1 :: rest, hb, u, hu => by
    rw [decodeUtf16le] at hu
    rcases List.mem_cons.mp hu with h | h
    · have h1 := hb b1 (by simp)
      omega
    · exact decodeUtf16le_units rest (fun b hbm => hb b (by simp [hbm])) u h

/-- UTF-8 decoding is the identity on buffers of bytes below 128. -/
theorem decodeUtf8F_ascii : ∀ (f : ℕ) (bs : List ℕ), bs.length ≤ f →
    (∀ b ∈ bs, b < 128) → decodeUtf8F f bs = bs := by
  intro f
  induction f with
  | zero =>
    intro bs h _
    cases bs with
    | nil => rfl
    | cons b bs' => simp at h
  | succ f ih =>
    intro bs h hb
    cases bs with
    | nil => rfl
    | cons b bs' =>
      have hblt : b < 128 := hb b (by simp)
      have hstep : decodeUtf8F (f + 1) (b :: bs') = b :: decodeUtf8F f bs' := by
        simp only [decodeUtf8F]
        rw [if_pos hblt]
      rw [hstep, ih bs' (by simpa using h) (fun x hx => hb x (by simp [hx]))]

/-- If a nonempty pattern occurs in a text, its head is an element. -/
theorem hasRun_head_mem : ∀ (p : ℕ) (ps text : List ℕ),
    hasRun (p :: ps) text = true → p ∈ text := by
  intro p ps text
  induction text with
  | nil => intro h; simp [hasRun, leadsWith] at h
  | cons t ts ih =>
    intro h
    rw [hasRun] at h
    rcases Bool.or_eq_true_iff.mp h with h1 | h1
    · rw [leadsWith] at h1
      have hpt : (p == t) = true := (Bool.and_eq_true_iff.mp h1).1
      exact List.mem_cons.mpr (Or.inl (eq_of_beq hpt))
    · exact List.mem_cons_of_mem t (ih h1)

/-- A one-element pattern occurs whenever its element does. -/
theorem hasRun_single_of_mem : ∀ (x : ℕ) (text : List ℕ),
    x ∈ text → hasRun [x] text = true := by
  intro x text
  induction text with
  | nil => intro h; simp at h
  | cons t ts ih =>
    intro h
    rw [hasRun]
    rcases List.mem_cons.mp h with h1 | h1
    · have hl : leadsWith [x] (t :: ts) = true := by
        rw [h1, leadsWith]
        simp [leadsWith]
      simp [hl]
    · simp [ih h1]

/-- A text all of whose units are at least 256 contains none of the CSV
marker patterns (each pattern starts with an ASCII unit). -/
theorem looksLikeCSV_of_large (text : List ℕ) (h : ∀ u ∈ text, 256 ≤ u) :
    looksLikeCSV text = false := by
  rw [looksLikeCSV]
  have h44 : hasRun [44] text = false := by
    cases hr : hasRun [44] text
    · rfl
    · have hm := hasRun_head_mem 44 [] text hr
      have := h 44 hm
      omega
  have h9 : hasRun [9] text = false := by
    cases hr : hasRun [9] text
    · rfl
    · have hm := hasRun_head_mem 9 [] text hr
      have := h 9 hm
      omega
  have hfn : hasRun firstnameUnits text = false := by
    cases hr : hasRun firstnameUnits text
    · rfl
    · have hr' : hasRun (102 :: [105, 114, 115, 116, 110, 97, 109, 101]) text = true := hr
      have hm := hasRun_head_mem 102 [105, 114, 115, 116, 110, 97, 109, 101] text hr'
      have := h 102 hm
      omega
  simp [h44, h9, hfn]


/-- C7.  Encoding detection: a UTF-16 byte-order mark (`FF FE` or
`FE FF`) forces `utf16le` regardless of the rest; without a BOM the fixed
candidate order `utf16le, utf8, latin1, ascii` is scanned and the first
whose decoded text contains a comma, a tab, or `"firstname"` is returned,
with `utf8` as fallback; and on a plain ASCII buffer (bytes `1..127`)
containing a comma the returned encoding decodes the buffer to exactly
its own bytes. -/
theorem claim_C7_encoding_detection :
    (∀ buf : List ℕ, 2 ≤ buf.length →
      ((buf.getD 0 0 = 255 ∧ buf.getD 1 0 = 254) ∨
        (buf.getD 0 0 = 254 ∧ buf.getD 1 0 = 255)) →
      detectEncoding buf = BufEncoding.utf16le) ∧
    (∀ buf : List ℕ,
      (decide (2 ≤ buf.length) && (buf.getD 0 0 == 255) && (buf.getD 1 0 == 254)) = false →
      (decide (2 ≤ buf.length) && (buf.getD 0 0 == 254) && (buf.getD 1 0 == 255)) = false →
      detectEncoding buf =
        (encCandidates.find? (fun e => looksLikeCSV (decodeEnc e buf))).getD BufEncoding.utf8) ∧
    (∀ buf : List ℕ, (∀ b ∈ buf, 1 ≤ b ∧ b ≤ 127) → 44 ∈ buf →
      detectEncoding buf = BufEncoding.utf8 ∧
      decodeEnc (detectEncoding buf) buf = buf) := by
  have hnoBom : ∀ buf : List ℕ,
      (decide (2 ≤ buf.length) && (buf.getD 0 0 == 255) && (buf.getD 1 0 == 254)) = false →
      (decide (2 ≤ buf.length) && (buf.getD 0 0 == 254) && (buf.getD 1 0 == 255)) = false →
      detectEncoding buf =
        (encCandidates.find? (fun e => looksLikeCSV (decodeEnc e buf))).getD BufEncoding.utf8 := by
    intro buf h1 h2
    rw [detectEncoding, if_neg (by rw [h1]; decide), if_neg (by rw [h2]; decide)]
    cases hf : encCandidates.find? (fun e => looksLikeCSV (decodeEnc e buf)) <;> rfl
  refine ⟨?_, hnoBom, ?_⟩
  · intro buf hlen hbom
    rcases hbom with ⟨h0, h1⟩ | ⟨h0, h1⟩
    · rw [detectEncoding, if_pos (by rw [h0, h1]; simp [hlen])]
    · rw [detectEncoding]
      rw [if_neg (by rw [h0]; simp), if_pos (by rw [h0, h1]; simp [hlen])]
  · intro buf hb h44
    have hd8 : decodeUtf8 buf = buf :=
      decodeUtf8F_ascii buf.length buf le_rfl (fun x hx => by
        have := (hb x hx).2
        omega)
    have h16 : looksLikeCSV (decodeUtf16le buf) = false :=
      looksLikeCSV_of_large _ (decodeUtf16le_units buf hb)
    have hcsv : looksLikeCSV buf = true := by
      rw [looksLikeCSV, hasRun_single_of_mem 44 buf h44]
      rfl
    have hfind : encCandidates.find? (fun e => looksLikeCSV (decodeEnc e buf)) =
        some BufEncoding.utf8 := by
      rw [encCandidates]
      rw [List.find?_cons_of_neg _ (by simp only [decodeEnc]; simp [h16])]
      rw [List.find?_cons_of_pos _ (by simp only [decodeEnc]; rw [hd8]; exact hcsv)]
    cases buf with
    | nil => simp at h44
    | cons b bs =>
      have hble : b ≤ 127 := (hb b (by simp)).2
      have hb255 : (b == 255) = false := beq_eq_false_iff_ne.mpr (by omega)
      have hb254 : (b == 254) = false := beq_eq_false_iff_ne.mpr (by omega)
      have hdet : detectEncoding (b :: bs) = BufEncoding.utf8 := by
        rw [hnoBom (b :: bs) (by simp [hb255]) (by simp [hb254]), hfind]
        rfl
      exact ⟨hdet, by rw [hdet]; exact hd8⟩

/-- Witness for C7: a BOM buffer and a plain ASCII buffer. -/
theorem claim_C7_encoding_detection_witness :
    detectEncoding [255, 254, 7] = BufEncoding.utf16le ∧
    detectEncoding [97, 44, 98] = BufEncoding.utf8 ∧
    decodeEnc (detectEncoding [97, 44, 98]) [97, 44, 98] = [97, 44, 98] :=
  ⟨claim_C7_encoding_detection.1 [255, 254, 7] (by decide) (by decide),
   (claim_C7_encoding_detection.2.2 [97, 44, 98] (by decide) (by decide)).1,
   (claim_C7_encoding_detection.2.2 [97, 44, 98] (by decide) (by decide)).2⟩

/-- C8.  Line cleaning (both endpoints): a line is dropped exactly when
its trimmed form is empty, is a bare carriage return, matches the
case-insensitive `digits + " rows affected"` pattern with optional
trailing parenthesis, or splits on tab into fewer than 18 fields; in
particular every under-18-field line and the line `"12 rows affected)"`
are excluded from the text handed to the CSV parser. -/
theorem claim_C8_line_cleaning :
    (∀ line : String, (jsSplit (jsTrim line) '\t').length < 18 → keepLine line = false) ∧
    keepLine "12 rows affected)" = false ∧
    (∀ line : String, keepLine line = false ↔
      (jsTrim line = "" ∨ jsTrim line = "\r" ∨ rowsAffectedRe (jsTrim line) = true ∨
        (jsSplit (jsTrim line) '\t').length < 18)) ∧
    (∀ content line : String, keepLine line = false →
      line ∉ (jsSplit content '\n').filter keepLine) := by
  have hiff : ∀ line : String, keepLine line = false ↔
      (jsTrim line = "" ∨ jsTrim line = "\r" ∨ rowsAffectedRe (jsTrim line) = true ∨
        (jsSplit (jsTrim line) '\t').length < 18) := by
    intro line
    simp only [keepLine]
    cases h1 : (jsTrim line == "") <;> cases h2 : (jsTrim line == "\r") <;>
      cases h3 : rowsAffectedRe (jsTrim line) <;>
        cases h4 : decide (18 ≤ (jsSplit (jsTrim line) '\t').length) <;>
          simp_all [beq_iff_eq, decide_eq_true_eq]
  refine ⟨?_, by decide, hiff, ?_⟩
  · intro line h
    exact (hiff line).mpr (Or.inr (Or.inr (Or.inr h)))
  · intro content line h hmem
    have hkeep := (List.mem_filter.mp hmem).2
    rw [h] at hkeep
    exact absurd hkeep (by simp)

/-- Witness for C8: a 1-field line is dropped and filtered out. -/
theorem claim_C8_line_cleaning_witness :
    keepLine "ab" = false ∧ "ab" ∉ (jsSplit "ab\nxy" '\n').filter keepLine :=
  ⟨claim_C8_line_cleaning.1 "ab" (by decide),
   claim_C8_line_cleaning.2.2.2 "ab\nxy" "ab" (claim_C8_line_cleaning.1 "ab" (by decide))⟩

/-! ## Lemmas for the default route's name reconstruction -/

/-- Splitting a string without the separator yields one field. -/
theorem splitChar_of_not_mem (sep : Char) : ∀ (xs : List Char), sep ∉ xs →
    splitChar sep xs = [xs] := by
  intro xs
  induction xs with
  | nil => intro _; rfl
  | cons c cs ih =>
    intro h
    have hc : ¬ c = sep := fun hc => h (by simp [hc])
    simp only [splitChar]
    rw [if_neg hc, ih (fun hm => h (by simp [hm]))]

/-- Splitting around the first separator occurrence. -/
theorem splitChar_append (sep : Char) : ∀ (xs ys : List Char), sep ∉ xs →
    splitChar sep (xs ++ sep :: ys) = xs :: splitChar sep ys := by
  intro xs ys
  induction xs with
  | nil =>
    intro _
    simp [splitChar]
  | cons c cs ih =>
    intro h
    have hc : ¬ c = sep := fun hc => h (by simp [hc])
    simp only [List.cons_append, splitChar, List.append_eq]
    rw [if_neg hc, ih (fun hm => h (by simp [hm]))]

/-- Splitting the grouping key on the underscore recovers the two names
whenever neither contains an underscore. -/
theorem jsSplit_key (f l : String) (hf : '_' ∉ f.data) (hl : '_' ∉ l.data) :
    jsSplit (f ++ "_" ++ l) '_' = [f, l] := by
  have hdata : (f ++ "_" ++ l).data = f.data ++ '_' :: l.data := by
    rw [String.data_append, String.data_append]
    have h1 : ("_" : String).data = ['_'] := rfl
    rw [h1, List.append_assoc]
    rfl
  rw [jsSplit, hdata, splitChar_append '_' f.data l.data hf,
    splitChar_of_not_mem '_' l.data hl]
  show [(⟨f.data⟩ : String), ⟨l.data⟩] = [f, l]
  rfl

/-- C10.  Default-path name reconstruction: output names are recovered by
splitting the grouping key on underscore, so rows whose names contain no
underscore round-trip exactly, while a firstname containing an underscore
comes back altered (the key is not injective in the name pair). -/
theorem claim_C10_default_name_reconstruction :
    (∀ (errs : List String) (data : List Row) (now : String) (r : Row),
      r ∈ data → (analyzeBarcodesD errs data now).success = true →
      '_' ∉ (jsField r "firstname").data → '_' ∉ (jsField r "lastname").data →
      ∃ q ∈ peopleOf (analyzeBarcodesD errs data now),
        q.firstname = jsField r "firstname" ∧ q.lastname = jsField r "lastname") ∧
    ((peopleOf (analyzeBarcodesD [] [wRowUnd] "t")).map
        (fun q => (q.firstname, q.lastname)) = [("a", "b")] ∧
      jsField wRowUnd "firstname" = "a_b" ∧ ("a_b" : String) ≠ "a") := by
  constructor
  · intro errs data now r hr hs hf hl
    rw [peopleOf_successD hs]
    obtain ⟨e, he, hk⟩ := (groupD_inv data).2 r hr
    have hsp : jsSplit (keyOf r) '_' = [jsField r "firstname", jsField r "lastname"] :=
      jsSplit_key _ _ hf hl
    refine ⟨mkPersonD e.1 e.2, ?_, ?_, ?_⟩
    · rw [peopleDataD, List.mem_insertionSort]
      exact List.mem_map.mpr ⟨e, he, rfl⟩
    · rw [hk]
      simp [mkPersonD, hsp]
    · rw [hk]
      simp [mkPersonD, hsp]
  · exact ⟨by decide, by decide, by decide⟩

/-- Witness for C10: a row with underscore-free names round-trips. -/
theorem claim_C10_default_name_reconstruction_witness :
    ∃ q ∈ peopleOf (analyzeBarcodesD [] [wRow1] "t"),
      q.firstname = jsField wRow1 "firstname" ∧ q.lastname = jsField wRow1 "lastname" :=
  claim_C10_default_name_reconstruction.1 [] [wRow1] "t" wRow1
    (by decide) (by decide) (by decide) (by decide)

end Dashboard
